import Mathlib

/-
Verification of the persistent GPU job dispatcher (src/cudaq.py).

The embedding below translates the ledger data model, the ingest/dedup path,
the two reconciliation passes, the device snapshot, and the assignment pass of
`run_cudaq` into executable Lean definitions.  External effects enter through
oracles:

* `alive : Int → Bool` models `os.kill(pid, 0)` succeeding (process liveness);
  separate oracles are used for distinct points in time.
* `wait : Int → Option Int` models `os.waitpid(pid, os.WNOHANG)[1]`: `some w`
  is the retrieved status word (0 exactly when the process exited with code 0),
  `none` models `ChildProcessError` (the exit status being unretrievable).
* `query : Nat → Option Int` models per-device NVML free-memory queries, with
  `none` standing for an `NVMLError` (the device is skipped with a warning).
  Free-memory readings are modelled as integer MB values; all comparisons and
  the reservation decrement in the source are order/ring operations that agree
  with this model on the integral values at stake.
* `launches : Nat → LaunchInfo` supplies, per dispatch event, the pid, the
  timestamp and the log-file path produced by `subprocess.Popen`/`datetime`.

The JSONL jobs file is modelled as the parsed record sequence (`List Job`);
`load_jobs` on a file written by this program parses every line back, so disk
contents are compared at the record level.
-/

set_option linter.unusedVariables false

namespace Cudaq

/-- Job lifecycle states: the status strings "pending", "running",
"completed", "failed" used throughout src/cudaq.py. -/
inductive Status where
  | pending
  | running
  | completed
  | failed
deriving DecidableEq, Repr, Inhabited

/-- A job record, with the JSONL fields created at src/cudaq.py lines
250-257: command, status, pid, gpu_id, start_time, log_file. -/
structure Job where
  command : String
  status : Status
  pid : Option Int
  gpu_id : Option Nat
  start_time : Option String
  log_file : Option String
deriving DecidableEq, Repr, Inhabited

/-- Model of `is_process_running` (src/cudaq.py lines 176-187): `pid is None or
pid <= 0` returns False without touching the OS; otherwise the result of the
`os.kill(pid, 0)` probe, modelled by the oracle `alive`. -/
def is_process_running (alive : Int → Bool) (pid : Option Int) : Bool :=
  match pid with
  | none => false
  | some p => if p ≤ 0 then false else alive p

/-- The ASCII whitespace characters removed by Python's `str.strip()` with no
argument (used on each source line at line 244). -/
def isPySpace (c : Char) : Bool :=
  c = ' ' || c = '\t' || c = '\n' || c = '\r' || c = '\x0b' || c = '\x0c'

/-- Model of `line.strip()` on the underlying character list: drop leading whitespace,
then trailing whitespace. -/
def stripChars (l : List Char) : List Char :=
  ((l.dropWhile isPySpace).reverse.dropWhile isPySpace).reverse

/-- Model of `line.strip()` (line 244). -/
def pyStrip (s : String) : String := ⟨stripChars s.data⟩

/-- Model of `new_commands = [line.strip() for line in f if line.strip()]` (line 244):
strip every line and keep only those whose stripped form is non-empty. -/
def parseCommands (lines : List String) : List String :=
  (lines.map pyStrip).filter (fun l => !(l == ""))

/-- The fresh record appended for a newly seen command (lines 250-257). -/
def newPendingJob (cmd : String) : Job :=
  { command := cmd, status := .pending, pid := none, gpu_id := none,
    start_time := none, log_file := none }

/-- One iteration of the ingest loop body (lines 246-259): append a pending
record unless some existing record (including one appended earlier in the same
loop) has exactly equal command text. -/
def ingestStep (acc : List Job) (cmd : String) : List Job :=
  if acc.any (fun j => j.command == cmd) then acc else acc ++ [newPendingJob cmd]

/-- The ingest loop over the candidate command texts (lines 246-259),
tracking the in-memory list only. -/
def ingest (jobs : List Job) (cmds : List String) : List Job :=
  cmds.foldl ingestStep jobs

/-- Startup reconciliation (lines 233-238): a running record whose stored pid
is not alive is marked failed; nothing else changes. -/
def reconcileStartup (alive : Int → Bool) (jobs : List Job) : List Job :=
  jobs.map (fun j =>
    if j.status = .running then
      if is_process_running alive j.pid then j else { j with status := .failed }
    else j)

/-- In-cycle update of one record (lines 270-283).  For a running record whose
pid is no longer alive, `wait p` models `os.waitpid(p, os.WNOHANG)[1]`:
`some w` is the retrieved status word, `none` models `ChildProcessError`
(caught; `retcode` stays `None`).  The record is classified completed exactly
when the retrieved word equals 0, else failed.  A running record whose pid
field is `None` reaches `os.waitpid(None, ...)`, a `TypeError` the code does
not catch: modelled as `none` (the loop crashes). -/
def updateRunningJob (alive : Int → Bool) (wait : Int → Option Int) (j : Job) :
    Option Job :=
  if j.status = .running then
    if is_process_running alive j.pid then some j
    else
      match j.pid with
      | some p =>
          some { j with status := if wait p = some 0 then .completed else .failed }
      | none => none
  else some j

/-- The in-cycle reconciliation pass over all records (lines 269-283). -/
def reconcileCycle (alive : Int → Bool) (wait : Int → Option Int) :
    List Job → Option (List Job)
  | [] => some []
  | j :: js =>
    match updateRunningJob alive wait j, reconcileCycle alive wait js with
    | some j', some js' => some (j' :: js')
    | _, _ => none

/-- The `changed` flag of lines 269-283: set exactly when some running record
is found dead. -/
def cycleChanged (alive : Int → Bool) (jobs : List Job) : Bool :=
  jobs.any (fun j => j.status == Status.running && !is_process_running alive j.pid)

/-- Model of `get_all_gpus_free_mem_mb` (lines 120-135): when `gpu_ids` is `none`, all
devices `0, ..., deviceCount - 1` in ascending order; otherwise the given
allow-list in its own order.  A device whose query fails is omitted.  The
Python dict is modelled as the association list in insertion order. -/
def get_all_gpus_free_mem_mb (deviceCount : Nat) (query : Nat → Option Int)
    (gpu_ids : Option (List Nat)) : List (Nat × Int) :=
  let ids := gpu_ids.getD (List.range deviceCount)
  ids.filterMap (fun g => (query g).map (fun m => (g, m)))

/-- Model of `suitable_gpus = [(gid, mem) for gid, mem in free_mem_dict.items() if mem
>= config["min_free_mem_mb"]]` (lines 306-307). -/
def suitable_gpus (snap : List (Nat × Int)) (thr : Int) : List (Nat × Int) :=
  snap.filter (fun p => decide (thr ≤ p.2))

/-- Stable insertion into a list sorted by descending memory: an element is
placed before the first entry whose memory is ≤ its own, so that among equal
memories the earlier element stays first — the stability guarantee of Python's
`list.sort(key=..., reverse=True)` (line 311). -/
def insertByMemDesc (p : Nat × Int) : List (Nat × Int) → List (Nat × Int)
  | [] => [p]
  | q :: qs => if q.2 ≤ p.2 then p :: q :: qs else q :: insertByMemDesc p qs

/-- Model of `suitable_gpus.sort(key=lambda x: x[1], reverse=True)` (line 311) as a
stable sort. -/
def sortByMemDesc (l : List (Nat × Int)) : List (Nat × Int) :=
  l.foldr insertByMemDesc []

/-- Model of `best_gpu, best_gpu_mem = suitable_gpus[0]` after the sort (line 312);
`none` when `suitable_gpus` is empty (break at lines 308-310). -/
def bestGpu (snap : List (Nat × Int)) (thr : Int) : Option (Nat × Int) :=
  (sortByMemDesc (suitable_gpus snap thr)).head?

/-- The first element of a list attaining the maximum memory value — the head
of the stable descending sort (proved below). -/
def firstMax : List (Nat × Int) → Option (Nat × Int)
  | [] => none
  | p :: ps => some ((firstMax ps).elim p (fun q => if q.2 ≤ p.2 then p else q))

/-- The launcher-provided values recorded at dispatch (lines 196-219): the
`Popen` pid, the `datetime.now()` timestamp, and the log-file path. -/
structure LaunchInfo where
  pid : Int
  start_time : String
  log_file : String
deriving DecidableEq, Repr, Inhabited

/-- Model of `dispatch_job` (lines 190-221): the field updates of lines 216-220. -/
def dispatch_job (j : Job) (gpu : Nat) (li : LaunchInfo) : Job :=
  { j with gpu_id := some gpu, log_file := some li.log_file,
           start_time := some li.start_time, pid := some li.pid,
           status := .running }

/-- Positions, in ledger order, of the pending records:
`pending_jobs = [j for j in all_jobs if j["status"] == "pending"]` (line 289),
represented by index into `all_jobs`. -/
def pendingIndices (jobs : List Job) : List Nat :=
  (List.range jobs.length).filter
    (fun i => decide ((jobs.get? i).map Job.status = some Status.pending))

/-- Model of `free_mem_dict[best_gpu] -= config["min_free_mem_mb"]` (line 323). -/
def decSnap (snap : List (Nat × Int)) (gpu : Nat) (thr : Int) : List (Nat × Int) :=
  snap.map (fun p => if p.1 = gpu then (p.1, p.2 - thr) else p)

/-- Outcome of the assignment pass: final job list, final snapshot, the
sequence of full-file rewrites performed (one per assignment, in order), and
the assignments `(job index, gpu id)` in order. -/
structure PassResult where
  jobs : List Job
  snap : List (Nat × Int)
  writes : List (List Job)
  assigned : List (Nat × Nat)
deriving DecidableEq, Repr

/-- The assignment pass (lines 303-324): visit the pending indices in order;
recompute the qualifying subset each time; break when it is empty; otherwise
dispatch to the sorted head, write the record back at its position, rewrite
the whole file, and decrement the chosen device's snapshot entry by the
threshold.  `k` counts dispatch events to index into `launches`. -/
def assignLoop (thr : Int) (launches : Nat → LaunchInfo) :
    List Nat → Nat → List Job → List (Nat × Int) → PassResult
  | [], _, jobs, snap => ⟨jobs, snap, [], []⟩
  | i :: rest, k, jobs, snap =>
    match bestGpu snap thr with
    | none => ⟨jobs, snap, [], []⟩
    | some (g, _) =>
      let jobs' := jobs.set i (dispatch_job (jobs.getD i default) g (launches k))
      let r := assignLoop thr launches rest (k + 1) jobs' (decSnap snap g thr)
      ⟨r.jobs, r.snap, jobs' :: r.writes, (i, g) :: r.assigned⟩

/-- The in-memory job list paired with the JSONL file contents (as parsed
records). -/
structure LedgerState where
  mem : List Job
  disk : List Job
deriving DecidableEq, Repr

/-- The ingest loop (lines 246-259) acting on memory and disk together:
`all_jobs.append(job_data)` then `save_job` (file append), with the trace of
the states right after each mutation. -/
def ingestLedger (st : LedgerState) : List String → LedgerState × List LedgerState
  | [] => (st, [])
  | c :: cs =>
    if st.mem.any (fun j => j.command == c) then ingestLedger st cs
    else
      let st' : LedgerState :=
        ⟨st.mem ++ [newPendingJob c], st.disk ++ [newPendingJob c]⟩
      let r := ingestLedger st' cs
      (r.1, st' :: r.2)

/-- One iteration of the while loop of `run_cudaq` (lines 264-328), given the
on-disk ledger at loop entry: reload from disk (line 266), reconcile running
records (lines 269-283), rewrite if anything changed (lines 285-286), then
the pending check (lines 289-293), the snapshot check (lines 296-301) and the
assignment pass (lines 303-324).  Returns the trace of ledger states right
after each file mutation; `none` models the uncaught `TypeError` from
`os.waitpid(None, ...)`. -/
def loopIterTrace (alive1 : Int → Bool) (wait : Int → Option Int) (thr : Int)
    (launches : Nat → LaunchInfo) (deviceCount : Nat) (query : Nat → Option Int)
    (gpu_ids : Option (List Nat)) (disk : List Job) : Option (List LedgerState) :=
  match reconcileCycle alive1 wait disk with
  | none => none
  | some jobs1 =>
    let tr3 : List LedgerState :=
      if cycleChanged alive1 disk then [⟨jobs1, jobs1⟩] else []
    if (pendingIndices jobs1).isEmpty then some tr3
    else
      let snap := get_all_gpus_free_mem_mb deviceCount query gpu_ids
      if snap.isEmpty then some tr3
      else
        let r := assignLoop thr launches (pendingIndices jobs1) 0 jobs1 snap
        some (tr3 ++ r.writes.map (fun w => ⟨w, w⟩))

/-- Model of `run_cudaq` (lines 224-328) from startup through the first
iteration of the dispatch loop, instrumented with the trace of ledger states
right after each mutation of the jobs file: the startup rewrite (line 239),
each ingest append (line 259), the reconciliation rewrite when anything
changed (line 286), and one rewrite per assignment (line 320).
`alive0`/`alive1` are the liveness oracle at startup and at the in-cycle
check; `hasCmdFile` models the `os.path.exists` test of line 242. -/
def run_cudaq_trace (alive0 alive1 : Int → Bool) (wait : Int → Option Int)
    (thr : Int) (launches : Nat → LaunchInfo)
    (deviceCount : Nat) (query : Nat → Option Int) (gpu_ids : Option (List Nat))
    (disk0 : List Job) (hasCmdFile : Bool) (srcLines : List String) :
    Option (List LedgerState) :=
  let m1 := reconcileStartup alive0 disk0
  let st1 : LedgerState := ⟨m1, m1⟩
  let p2 := if hasCmdFile then ingestLedger st1 (parseCommands srcLines)
            else (st1, [])
  match loopIterTrace alive1 wait thr launches deviceCount query gpu_ids
      p2.1.disk with
  | none => none
  | some tr => some (st1 :: p2.2 ++ tr)

/-- A concrete launcher oracle for instantiating theorems on closed inputs. -/
def exLaunches : Nat → LaunchInfo :=
  fun k => ⟨4000 + (k : Int), "2024-01-01T00:00:00", "./logs/job.log"⟩

/-- A concrete ledger with two pending jobs, for instantiations. -/
def exTwoJobs : List Job := [newPendingJob "python a.py", newPendingJob "python b.py"]

/-- The device snapshot of the spec's worked example: device A (id 0)
reporting 8000 MB free and device B (id 1) reporting 10000 MB free. -/
def exSnapAB : List (Nat × Int) := [(0, 8000), (1, 10000)]

/-- Lookup of a device's entry in the snapshot association list — the value
`free_mem_dict[gid]` of the Python dict (unique keys). -/
def lookupSnap (snap : List (Nat × Int)) (g : Nat) : Option Int :=
  (snap.find? (fun p => p.1 == g)).map Prod.snd

/-- A concrete record in the running state, for instantiating theorems. -/
def exRunningJob (cmd : String) (p : Int) : Job :=
  { command := cmd, status := .running, pid := some p, gpu_id := some 0,
    start_time := some "2024-01-01T00:00:00", log_file := some "./logs/old.log" }

/-- A concrete liveness oracle: only pid 300 is alive. -/
def exAlive : Int → Bool := fun p => decide (p = 300)

/-- A concrete ledger for reconciliation instantiations: a dead running
record, a live running record, and a completed record. -/
def exJobsRec : List Job :=
  [exRunningJob "python dead.py" 200, exRunningJob "python live.py" 300,
   { command := "python done.py", status := .completed, pid := some 7,
     gpu_id := some 1, start_time := some "t", log_file := some "f" }]

/-- A concrete exit-status oracle: pid 200 has status word 0 (exit code 0),
every other pid is unretrievable. -/
def exWait : Int → Option Int := fun p => if p = 200 then some 0 else none

/-
Lemma toolbox: the head of the stable descending sort, characterised as the
first element attaining the maximum memory, and index-preservation facts
about the assignment pass.
-/

theorem insertByMemDesc_head (p : Nat × Int) (l : List (Nat × Int)) :
    (insertByMemDesc p l).head? =
      some (l.head?.elim p (fun q => if q.2 ≤ p.2 then p else q)) := by
  cases l with
  | nil => rfl
  | cons q qs =>
    by_cases h : q.2 ≤ p.2 <;> simp [insertByMemDesc, h]

theorem sortByMemDesc_head (l : List (Nat × Int)) :
    (sortByMemDesc l).head? = firstMax l := by
  induction l with
  | nil => rfl
  | cons p ps ih =>
    show (insertByMemDesc p (sortByMemDesc ps)).head? = firstMax (p :: ps)
    rw [insertByMemDesc_head, ih]
    cases h : firstMax ps with
    | none => simp [firstMax, h]
    | some q => simp [firstMax, h]

theorem firstMax_eq_none {l : List (Nat × Int)} : firstMax l = none ↔ l = [] := by
  cases l with
  | nil => simp [firstMax]
  | cons p ps => cases h : firstMax ps <;> simp [firstMax, h]

theorem firstMax_mem {l : List (Nat × Int)} : ∀ {q}, firstMax l = some q → q ∈ l := by
  induction l with
  | nil => intro q h; simp [firstMax] at h
  | cons p ps ih =>
    intro q h
    cases h' : firstMax ps with
    | none =>
      rw [firstMax, h'] at h
      simp only [Option.elim] at h
      cases h
      exact List.mem_cons_self _ _
    | some q' =>
      rw [firstMax, h'] at h
      simp only [Option.elim] at h
      by_cases hc : q'.2 ≤ p.2
      · rw [if_pos hc] at h
        cases h
        exact List.mem_cons_self _ _
      · rw [if_neg hc] at h
        cases h
        exact List.mem_cons_of_mem _ (ih h')

theorem firstMax_le {l : List (Nat × Int)} :
    ∀ {q}, firstMax l = some q → ∀ r ∈ l, r.2 ≤ q.2 := by
  induction l with
  | nil => intro q h; simp [firstMax] at h
  | cons p ps ih =>
    intro q h r hr
    cases h' : firstMax ps with
    | none =>
      have hps : ps = [] := firstMax_eq_none.mp h'
      subst hps
      rw [firstMax, h'] at h
      simp only [Option.elim] at h
      cases h
      simp at hr
      subst hr
      exact le_refl _
    | some q' =>
      rw [firstMax, h'] at h
      simp only [Option.elim] at h
      by_cases hc : q'.2 ≤ p.2
      · rw [if_pos hc] at h
        cases h
        rcases List.mem_cons.mp hr with rfl | hr'
        · exact le_refl _
        · exact le_trans (ih h' r hr') hc
      · rw [if_neg hc] at h
        cases h
        rcases List.mem_cons.mp hr with rfl | hr'
        · exact le_of_lt (lt_of_not_le hc)
        · exact ih h' r hr'

theorem firstMax_split {l : List (Nat × Int)} :
    ∀ {q}, firstMax l = some q →
      ∃ l1 l2, l = l1 ++ q :: l2 ∧ ∀ r ∈ l1, r.2 < q.2 := by
  induction l with
  | nil => intro q h; simp [firstMax] at h
  | cons p ps ih =>
    intro q h
    cases h' : firstMax ps with
    | none =>
      rw [firstMax, h'] at h
      simp only [Option.elim] at h
      cases h
      exact ⟨[], ps, rfl, by simp⟩
    | some q' =>
      rw [firstMax, h'] at h
      simp only [Option.elim] at h
      by_cases hc : q'.2 ≤ p.2
      · rw [if_pos hc] at h
        cases h
        exact ⟨[], ps, rfl, by simp⟩
      · rw [if_neg hc] at h
        cases h
        obtain ⟨l1, l2, heq, hlt⟩ := ih h'
        refine ⟨p :: l1, l2, by rw [heq]; rfl, ?_⟩
        intro r hr
        rcases List.mem_cons.mp hr with rfl | hr'
        · exact lt_of_not_le hc
        · exact hlt r hr'

theorem bestGpu_eq_firstMax (snap : List (Nat × Int)) (thr : Int) :
    bestGpu snap thr = firstMax (suitable_gpus snap thr) :=
  sortByMemDesc_head _

theorem bestGpu_none_iff {snap : List (Nat × Int)} {thr : Int} :
    bestGpu snap thr = none ↔ suitable_gpus snap thr = [] := by
  rw [bestGpu_eq_firstMax]; exact firstMax_eq_none

theorem bestGpu_mem {snap : List (Nat × Int)} {thr : Int} {g : Nat} {m : Int}
    (h : bestGpu snap thr = some (g, m)) : (g, m) ∈ suitable_gpus snap thr :=
  firstMax_mem (by rw [← bestGpu_eq_firstMax]; exact h)

theorem suitable_gpus_spec {snap : List (Nat × Int)} {thr : Int} {r : Nat × Int} :
    r ∈ suitable_gpus snap thr ↔ r ∈ snap ∧ thr ≤ r.2 := by
  simp [suitable_gpus, List.mem_filter]

theorem bestGpu_max {snap : List (Nat × Int)} {thr : Int} {g : Nat} {m : Int}
    (h : bestGpu snap thr = some (g, m)) :
    ∀ r ∈ suitable_gpus snap thr, r.2 ≤ m :=
  firstMax_le (by rw [← bestGpu_eq_firstMax]; exact h)

theorem get?_set_self' {α : Type} (l : List α) (i : Nat) (a : α) (h : i < l.length) :
    (l.set i a).get? i = some a := by
  rw [List.get?_set_eq, List.get?_eq_get h]
  rfl

theorem pendingIndices_nodup (jobs : List Job) : (pendingIndices jobs).Nodup :=
  (List.nodup_range _).filter _

theorem mem_pendingIndices {jobs : List Job} {i : Nat} :
    i ∈ pendingIndices jobs ↔
      i < jobs.length ∧ (jobs.get? i).map Job.status = some Status.pending := by
  simp [pendingIndices, List.mem_filter, List.mem_range]

theorem assignLoop_untouched (thr : Int) (L : Nat → LaunchInfo) :
    ∀ (idxs : List Nat) (k : Nat) (jobs : List Job) (snap : List (Nat × Int))
      (i : Nat), i ∉ idxs →
      (assignLoop thr L idxs k jobs snap).jobs.get? i = jobs.get? i := by
  intro idxs
  induction idxs with
  | nil => intro k jobs snap i h; rfl
  | cons a rest ih =>
    intro k jobs snap i h
    have hi : i ∉ rest := fun hh => h (List.mem_cons_of_mem _ hh)
    have hai : a ≠ i := fun e => h (e ▸ List.mem_cons_self a rest)
    cases hb : bestGpu snap thr with
    | none => simp [assignLoop, hb]
    | some gm =>
      obtain ⟨g, m⟩ := gm
      simp only [assignLoop, hb]
      rw [ih _ _ _ _ hi]
      exact List.get?_set_ne _ _ hai

theorem assignLoop_spec (thr : Int) (L : Nat → LaunchInfo) :
    ∀ (idxs : List Nat) (k : Nat) (jobs : List Job) (snap : List (Nat × Int)),
      idxs.Nodup →
      ∃ n, n ≤ idxs.length ∧
        (assignLoop thr L idxs k jobs snap).assigned.map Prod.fst = idxs.take n ∧
        (n < idxs.length →
          suitable_gpus (assignLoop thr L idxs k jobs snap).snap thr = []) ∧
        ∀ i ∈ idxs.drop n,
          (assignLoop thr L idxs k jobs snap).jobs.get? i = jobs.get? i := by
  intro idxs
  induction idxs with
  | nil =>
    intro k jobs snap h
    exact ⟨0, by simp [assignLoop]⟩
  | cons a rest ih =>
    intro k jobs snap h
    have hrest : rest.Nodup := (List.nodup_cons.mp h).2
    have hna : a ∉ rest := (List.nodup_cons.mp h).1
    cases hb : bestGpu snap thr with
    | none =>
      refine ⟨0, Nat.zero_le _, by simp [assignLoop, hb], ?_, ?_⟩
      · intro _
        simp only [assignLoop, hb]
        exact bestGpu_none_iff.mp hb
      · intro i hi
        simp [assignLoop, hb]
    | some gm =>
      obtain ⟨g, m⟩ := gm
      obtain ⟨n, hn, h1, h2, h3⟩ :=
        ih (k + 1) (jobs.set a (dispatch_job (jobs.getD a default) g (L k)))
          (decSnap snap g thr) hrest
      refine ⟨n + 1, by simpa using hn, ?_, ?_, ?_⟩
      · simp only [assignLoop, hb, List.map_cons, List.take_succ_cons]
        rw [h1]
      · intro hlt
        simp only [assignLoop, hb]
        exact h2 (by simpa using hlt)
      · intro i hi
        have hi' : i ∈ rest.drop n := by simpa using hi
        have hir : i ∈ rest := List.drop_subset _ _ hi'
        simp only [assignLoop, hb]
        rw [h3 i hi']
        exact List.get?_set_ne _ _ (fun e => hna (e ▸ hir))

theorem assignLoop_writes (thr : Int) (L : Nat → LaunchInfo) :
    ∀ (idxs : List Nat) (k : Nat) (jobs : List Job) (snap : List (Nat × Int)),
      (∀ i ∈ idxs, i < jobs.length) →
      (assignLoop thr L idxs k jobs snap).writes.length
          = (assignLoop thr L idxs k jobs snap).assigned.length ∧
        ∀ nn i g, (assignLoop thr L idxs k jobs snap).assigned.get? nn = some (i, g) →
          ∃ w, (assignLoop thr L idxs k jobs snap).writes.get? nn = some w ∧
            ∃ jr, w.get? i = some jr ∧ jr.status = Status.running ∧
              jr.gpu_id = some g := by
  intro idxs
  induction idxs with
  | nil =>
    intro k jobs snap hlen
    exact ⟨rfl, by intro nn i g hg; simp [assignLoop] at hg⟩
  | cons a rest ih =>
    intro k jobs snap hlen
    cases hb : bestGpu snap thr with
    | none =>
      refine ⟨by simp [assignLoop, hb], ?_⟩
      intro nn i g hg
      simp [assignLoop, hb] at hg
    | some gm =>
      obtain ⟨g0, m⟩ := gm
      have hlen' : ∀ i ∈ rest,
          i < (jobs.set a (dispatch_job (jobs.getD a default) g0 (L k))).length := by
        intro i hi
        rw [List.length_set]
        exact hlen i (List.mem_cons_of_mem _ hi)
      obtain ⟨ihl, ihw⟩ :=
        ih (k + 1) (jobs.set a (dispatch_job (jobs.getD a default) g0 (L k)))
          (decSnap snap g0 thr) hlen'
      constructor
      · simp only [assignLoop, hb, List.length_cons]
        rw [ihl]
      · intro nn i g hg
        simp only [assignLoop, hb] at hg ⊢
        cases nn with
        | zero =>
          simp only [List.get?] at hg ⊢
          cases hg
          refine ⟨_, rfl, ?_⟩
          refine ⟨dispatch_job (jobs.getD a default) g0 (L k), ?_, rfl, rfl⟩
          exact get?_set_self' _ _ _ (hlen a (List.mem_cons_self _ _))
        | succ nn' =>
          simp only [List.get?] at hg ⊢
          exact ihw nn' i g hg

/-
Ingest and dedup lemmas.
-/

theorem ingest_extends : ∀ (cmds : List String) (jobs : List Job),
    ∃ new, ingest jobs cmds = jobs ++ new ∧
      (∀ r ∈ new, r.status = Status.pending ∧ r.pid = none ∧
        ∀ j ∈ jobs, j.command ≠ r.command) ∧
      (new.map Job.command).Nodup := by
  intro cmds
  induction cmds with
  | nil =>
    intro jobs
    exact ⟨[], by simp [ingest], by simp, by simp⟩
  | cons c cs ih =>
    intro jobs
    show ∃ new, ingest (ingestStep jobs c) cs = jobs ++ new ∧ _ ∧ _
    by_cases hc : jobs.any (fun j => j.command == c) = true
    · have hstep : ingestStep jobs c = jobs := by simp [ingestStep, hc]
      rw [hstep]
      exact ih jobs
    · have hstep : ingestStep jobs c = jobs ++ [newPendingJob c] := by
        simp [ingestStep, hc]
      rw [hstep]
      have hc' : jobs.any (fun j => j.command == c) = false := by
        cases hx : jobs.any (fun j => j.command == c) with
        | true => exact absurd hx hc
        | false => rfl
      have hnotin : ∀ j ∈ jobs, j.command ≠ c := by
        intro j hj
        have := List.any_eq_false.mp hc' j hj
        simpa using this
      obtain ⟨new', heq, hprops, hnd⟩ := ih (jobs ++ [newPendingJob c])
      refine ⟨newPendingJob c :: new', by rw [heq]; simp, ?_, ?_⟩
      · intro r hr
        rcases List.mem_cons.mp hr with rfl | hr'
        · exact ⟨rfl, rfl, hnotin⟩
        · obtain ⟨h1, h2, h3⟩ := hprops r hr'
          exact ⟨h1, h2, fun j hj => h3 j (List.mem_append.mpr (Or.inl hj))⟩
      · rw [List.map_cons]
        rw [List.nodup_cons]
        constructor
        · intro hmem
          obtain ⟨r, hr, hrc⟩ := List.mem_map.mp hmem
          have := (hprops r hr).2.2 (newPendingJob c)
            (List.mem_append.mpr (Or.inr (List.mem_cons_self _ _)))
          exact this hrc.symm
        · exact hnd

theorem ingest_nodup_commands (cmds : List String) (jobs : List Job)
    (h : (jobs.map Job.command).Nodup) :
    ((ingest jobs cmds).map Job.command).Nodup := by
  obtain ⟨new, heq, hprops, hnd⟩ := ingest_extends cmds jobs
  rw [heq, List.map_append, List.nodup_append]
  refine ⟨h, hnd, ?_⟩
  intro x hx hx'
  obtain ⟨j, hj, hjc⟩ := List.mem_map.mp hx
  obtain ⟨r, hr, hrc⟩ := List.mem_map.mp hx'
  exact (hprops r hr).2.2 j hj (hjc.trans hrc.symm)

theorem nodup_commands_get? {jobs : List Job} (h : (jobs.map Job.command).Nodup)
    {i k : Nat} {r s : Job} (hi : jobs.get? i = some r) (hk : jobs.get? k = some s)
    (hik : i ≠ k) : r.command ≠ s.command := by
  intro hceq
  have hinj := List.nodup_iff_injective_get.mp h
  have hi' : (jobs.map Job.command).get? i = some r.command := by
    rw [List.get?_map, hi]; rfl
  have hk' : (jobs.map Job.command).get? k = some s.command := by
    rw [List.get?_map, hk]; rfl
  obtain ⟨hil, hig⟩ := List.get?_eq_some.mp hi'
  obtain ⟨hkl, hkg⟩ := List.get?_eq_some.mp hk'
  have : (⟨i, hil⟩ : Fin _) = ⟨k, hkl⟩ := hinj (by rw [hig, hkg, hceq])
  exact hik (by simpa using congrArg Fin.val this)

theorem nodup_commands_countP {jobs : List Job}
    (h : (jobs.map Job.command).Nodup) (c : String) :
    jobs.countP (fun r => r.command == c) ≤ 1 := by
  have h1 := List.nodup_iff_count_le_one.mp h c
  rw [List.count_eq_countP, List.countP_map] at h1
  exact le_trans (le_of_eq (by rfl)) h1

/-
Whitespace-stripping lemmas.
-/

theorem dropWhile_append_of_forall {α : Type} (p : α → Bool) (a t : List α)
    (h : ∀ c ∈ a, p c = true) : (a ++ t).dropWhile p = t.dropWhile p := by
  induction a with
  | nil => rfl
  | cons x xs ih =>
    have hx : p x = true := h x (List.mem_cons_self _ _)
    rw [List.cons_append, List.dropWhile_cons, if_pos hx]
    exact ih (fun c hc => h c (List.mem_cons_of_mem _ hc))

theorem stripChars_append_left (a x : List Char)
    (ha : ∀ c ∈ a, isPySpace c = true) :
    stripChars (a ++ x) = stripChars x := by
  unfold stripChars
  rw [dropWhile_append_of_forall _ a x ha]

theorem stripChars_append_right (x b : List Char)
    (hb : ∀ c ∈ b, isPySpace c = true) :
    stripChars (x ++ b) = stripChars x := by
  unfold stripChars
  rw [List.dropWhile_append]
  by_cases hx : (x.dropWhile isPySpace).isEmpty = true
  · rw [if_pos hx]
    rw [List.isEmpty_iff.mp hx]
    rw [List.dropWhile_eq_nil_iff.mpr hb]
  · rw [if_neg hx]
    rw [List.reverse_append]
    rw [dropWhile_append_of_forall _ b.reverse _
      (fun c hc => hb c (List.mem_reverse.mp hc))]

theorem stripChars_surround (w1 s w2 : List Char)
    (h1 : ∀ c ∈ w1, isPySpace c = true) (h2 : ∀ c ∈ w2, isPySpace c = true) :
    stripChars (w1 ++ s ++ w2) = stripChars s := by
  rw [stripChars_append_right _ _ h2, stripChars_append_left _ _ h1]

/-
Reconciliation lemmas.
-/

theorem reconcileStartup_mem_running {alive : Int → Bool} {jobs : List Job} :
    ∀ j ∈ reconcileStartup alive jobs, j.status = Status.running →
      is_process_running alive j.pid = true := by
  intro j hj hs
  rcases List.mem_map.mp hj with ⟨j0, hj0, heq⟩
  subst heq
  by_cases h1 : j0.status = Status.running
  · rw [if_pos h1] at hs ⊢
    by_cases h2 : is_process_running alive j0.pid = true
    · rw [if_pos h2] at hs ⊢
      exact h2
    · rw [if_neg h2] at hs
      simp at hs
  · rw [if_neg h1] at hs
    exact absurd hs h1

theorem updateRunningJob_some (alive : Int → Bool) (wait : Int → Option Int)
    (j : Job) (hp : j.status = Status.running → j.pid ≠ none) :
    ∃ j', updateRunningJob alive wait j = some j' := by
  unfold updateRunningJob
  by_cases h1 : j.status = Status.running
  · rw [if_pos h1]
    by_cases h2 : is_process_running alive j.pid = true
    · rw [if_pos h2]
      exact ⟨j, rfl⟩
    · rw [if_neg h2]
      cases hpid : j.pid with
      | none => exact absurd hpid (hp h1)
      | some p => exact ⟨_, rfl⟩
  · rw [if_neg h1]
    exact ⟨j, rfl⟩

theorem reconcileCycle_sound (alive : Int → Bool) (wait : Int → Option Int) :
    ∀ jobs : List Job, (∀ j ∈ jobs, j.status = Status.running → j.pid ≠ none) →
      ∃ js', reconcileCycle alive wait jobs = some js' ∧
        js'.length = jobs.length ∧
        ∀ i j, jobs.get? i = some j →
          ∃ j', js'.get? i = some j' ∧ updateRunningJob alive wait j = some j' := by
  intro jobs
  induction jobs with
  | nil =>
    intro h
    exact ⟨[], rfl, rfl, by intro i j hj; simp at hj⟩
  | cons j js ihs =>
    intro h
    obtain ⟨j', hj'⟩ :=
      updateRunningJob_some alive wait j (h j (List.mem_cons_self _ _))
    obtain ⟨js', hjs, hlen, hpt⟩ := ihs (fun x hx => h x (List.mem_cons_of_mem _ hx))
    refine ⟨j' :: js', ?_, by simp [hlen], ?_⟩
    · show reconcileCycle alive wait (j :: js) = some (j' :: js')
      rw [reconcileCycle, hj', hjs]
    · intro i x hx
      cases i with
      | zero =>
        simp only [List.get?] at hx
        cases hx
        exact ⟨j', rfl, hj'⟩
      | succ n =>
        simp only [List.get?] at hx ⊢
        exact hpt n x hx

/-
Ledger-synchrony lemmas.
-/

theorem ingestLedger_sync : ∀ (cmds : List String) (st : LedgerState),
    st.disk = st.mem →
      (∀ s ∈ (ingestLedger st cmds).2, s.disk = s.mem) ∧
      (ingestLedger st cmds).1.disk = (ingestLedger st cmds).1.mem := by
  intro cmds
  induction cmds with
  | nil =>
    intro st h
    exact ⟨by simp [ingestLedger], h⟩
  | cons c cs ih =>
    intro st h
    by_cases hc : st.mem.any (fun j => j.command == c) = true
    · rw [ingestLedger, if_pos hc]
      exact ih st h
    · rw [ingestLedger, if_neg hc]
      have h' : (⟨st.mem ++ [newPendingJob c], st.disk ++ [newPendingJob c]⟩ :
          LedgerState).disk = (⟨st.mem ++ [newPendingJob c],
          st.disk ++ [newPendingJob c]⟩ : LedgerState).mem := by
        simp [h]
      obtain ⟨ha, hb⟩ :=
        ih ⟨st.mem ++ [newPendingJob c], st.disk ++ [newPendingJob c]⟩ h'
      refine ⟨?_, hb⟩
      intro s hs
      rcases List.mem_cons.mp hs with rfl | hs'
      · simp [h]
      · exact ha s hs'

theorem ingestLedger_mem : ∀ (cmds : List String) (st : LedgerState) (j : Job),
    j ∈ (ingestLedger st cmds).1.mem → j ∈ st.mem ∨ j.status = Status.pending := by
  intro cmds
  induction cmds with
  | nil =>
    intro st j h
    exact Or.inl h
  | cons c cs ih =>
    intro st j h
    by_cases hc : st.mem.any (fun x => x.command == c) = true
    · rw [ingestLedger, if_pos hc] at h
      exact ih st j h
    · rw [ingestLedger, if_neg hc] at h
      rcases ih ⟨st.mem ++ [newPendingJob c], st.disk ++ [newPendingJob c]⟩ j h
        with hin | hp
      · rcases List.mem_append.mp hin with hin' | hin'
        · exact Or.inl hin'
        · rcases List.mem_cons.mp hin' with rfl | hfalse
          · exact Or.inr rfl
          · simp at hfalse
      · exact Or.inr hp

theorem lookupSnap_decSnap (snap : List (Nat × Int)) (g : Nat) (thr : Int) :
    lookupSnap (decSnap snap g thr) g = (lookupSnap snap g).map (fun v => v - thr) := by
  induction snap with
  | nil => rfl
  | cons p ps ih =>
    by_cases hp : p.1 = g
    · unfold lookupSnap decSnap
      rw [List.map_cons, List.find?_cons, List.find?_cons]
      have hb : (p.1 == g) = true := by simp [hp]
      rw [if_pos hp]
      simp only [hb, cond_true]  -- hmm find? uses match on predicate
      simp [hp]
    · unfold lookupSnap decSnap
      rw [List.map_cons, List.find?_cons, List.find?_cons]
      have hb : (p.1 == g) = false := by simp [hp]
      rw [if_neg hp]
      simp only [hb, cond_false]
      exact ih

/-
Claim theorems.
-/

/-- Claim C9: the process-liveness check returns false for every handle that
is None or ≤ 0; the result there does not depend on the OS probe oracle at
all, so no signal-0 probe is ever sent for pid 0 or a negative pid (which
would address a process group); and a freshly ingested pending record, whose
pid is None, is never reported alive. -/
theorem liveness_check_guards_none_and_nonpositive :
    (∀ (f g : Int → Bool) (pid : Option Int),
      (pid = none ∨ ∃ p, pid = some p ∧ p ≤ 0) →
      is_process_running f pid = false ∧
        is_process_running f pid = is_process_running g pid) ∧
    (∀ (f : Int → Bool) (cmd : String),
      is_process_running f (newPendingJob cmd).pid = false) := by
  constructor
  · intro f g pid h
    rcases h with rfl | ⟨p, rfl, hp⟩
    · exact ⟨rfl, rfl⟩
    · constructor
      · simp [is_process_running, hp]
      · simp [is_process_running, hp]
  · intro f cmd
    rfl

/-- Witness for C9, at pid = some (-5) with two probe oracles that disagree
everywhere. -/
theorem liveness_check_guards_witness :
    is_process_running (fun _ => true) (some (-5)) = false ∧
      is_process_running (fun _ => true) (some (-5))
        = is_process_running (fun _ => false) (some (-5)) :=
  liveness_check_guards_none_and_nonpositive.1 (fun _ => true) (fun _ => false)
    (some (-5)) (Or.inr ⟨-5, rfl, by decide⟩)

/-- Claim C6: startup reconciliation maps over the ledger; a running record
whose stored handle is not alive has its status set to failed, and no other
record and no other field of any record is altered. -/
theorem startup_reconcile_frame (alive : Int → Bool) (jobs : List Job) :
    (reconcileStartup alive jobs).length = jobs.length ∧
    ∀ i j, jobs.get? i = some j →
      ∃ j', (reconcileStartup alive jobs).get? i = some j' ∧
        j'.command = j.command ∧ j'.pid = j.pid ∧ j'.gpu_id = j.gpu_id ∧
        j'.start_time = j.start_time ∧ j'.log_file = j.log_file ∧
        (j.status = Status.running ∧ is_process_running alive j.pid = false →
          j'.status = Status.failed) ∧
        (¬(j.status = Status.running ∧ is_process_running alive j.pid = false) →
          j'.status = j.status) := by
  constructor
  · simp [reconcileStartup]
  · intro i j hj
    refine ⟨if j.status = Status.running then
        (if is_process_running alive j.pid then j
         else { j with status := Status.failed })
      else j, ?_, ?_⟩
    · rw [reconcileStartup, List.get?_map, hj]
      rfl
    · by_cases h1 : j.status = Status.running
      · by_cases h2 : is_process_running alive j.pid = true
        · rw [if_pos h1, if_pos h2]
          refine ⟨rfl, rfl, rfl, rfl, rfl, ?_, fun _ => rfl⟩
          intro hcon
          rw [h2] at hcon
          cases hcon.2
        · have h2' : is_process_running alive j.pid = false := by
            cases hx : is_process_running alive j.pid with
            | true => exact absurd hx h2
            | false => rfl
          rw [if_pos h1, if_neg h2]
          refine ⟨rfl, rfl, rfl, rfl, rfl, fun _ => rfl, ?_⟩
          intro hn
          exact absurd ⟨h1, h2'⟩ hn
      · rw [if_neg h1]
        refine ⟨rfl, rfl, rfl, rfl, rfl, ?_, fun _ => rfl⟩
        intro hcon
        exact absurd hcon.1 h1

/-- Witness for C6: in a ledger with a dead running record, a live running
record and a completed record, the dead running record (index 0) is the one
reconciled. -/
theorem startup_reconcile_frame_witness :
    ∃ j', (reconcileStartup exAlive exJobsRec).get? 0 = some j' ∧
      j'.command = (exRunningJob "python dead.py" 200).command ∧
      j'.pid = (exRunningJob "python dead.py" 200).pid ∧
      j'.gpu_id = (exRunningJob "python dead.py" 200).gpu_id ∧
      j'.start_time = (exRunningJob "python dead.py" 200).start_time ∧
      j'.log_file = (exRunningJob "python dead.py" 200).log_file ∧
      ((exRunningJob "python dead.py" 200).status = Status.running ∧
          is_process_running exAlive (exRunningJob "python dead.py" 200).pid = false →
        j'.status = Status.failed) ∧
      (¬((exRunningJob "python dead.py" 200).status = Status.running ∧
          is_process_running exAlive (exRunningJob "python dead.py" 200).pid = false) →
        j'.status = (exRunningJob "python dead.py" 200).status) :=
  (startup_reconcile_frame exAlive exJobsRec).2 0 (exRunningJob "python dead.py" 200)
    (by rfl)

/-- Claim C7: during in-cycle reconciliation, a running record whose handle is
no longer alive has exit-status retrieval attempted; it is classified
completed exactly when the retrieved exit status is 0, failed for a nonzero
status and failed when the status is unretrievable. -/
theorem cycle_reconcile_exit_classification (alive : Int → Bool)
    (wait : Int → Option Int) (jobs : List Job)
    (hwf : ∀ j ∈ jobs, j.status = Status.running → j.pid ≠ none)
    (i : Nat) (j : Job) (p : Int)
    (hj : jobs.get? i = some j) (hr : j.status = Status.running)
    (hpid : j.pid = some p)
    (hdead : is_process_running alive j.pid = false) :
    ∃ js', reconcileCycle alive wait jobs = some js' ∧
      ∃ j', js'.get? i = some j' ∧
        j' = { j with status := if wait p = some 0 then Status.completed
                                else Status.failed } ∧
        (wait p = some 0 → j'.status = Status.completed) ∧
        (∀ c, wait p = some c → c ≠ 0 → j'.status = Status.failed) ∧
        (wait p = none → j'.status = Status.failed) := by
  obtain ⟨js', hsome, hlen, hpt⟩ := reconcileCycle_sound alive wait jobs hwf
  obtain ⟨j', hj', hupd⟩ := hpt i j hj
  rw [updateRunningJob, if_pos hr] at hupd
  rw [hdead] at hupd
  simp only [Bool.false_eq_true, if_false] at hupd
  rw [hpid] at hupd
  simp only [Option.some.injEq] at hupd
  refine ⟨js', hsome, j', hj', ?_, ?_, ?_, ?_⟩
  · rw [hpid]
    exact hupd.symm
  · intro h0
    rw [← hupd]
    simp [h0]
  · intro c hc hcne
    rw [← hupd]
    simp [hc, hcne]
  · intro hn
    rw [← hupd]
    simp [hn]

/-- Witness for C7: a dead running record with pid 200 whose status word is
retrieved as 0 is classified completed. -/
theorem cycle_reconcile_exit_classification_witness :
    ∃ js', reconcileCycle exAlive exWait exJobsRec = some js' ∧
      ∃ j', js'.get? 0 = some j' ∧
        j' = { exRunningJob "python dead.py" 200 with
                status := if exWait 200 = some 0 then Status.completed
                          else Status.failed } ∧
        (exWait 200 = some 0 → j'.status = Status.completed) ∧
        (∀ c, exWait 200 = some c → c ≠ 0 → j'.status = Status.failed) ∧
        (exWait 200 = none → j'.status = Status.failed) :=
  cycle_reconcile_exit_classification exAlive exWait exJobsRec
    (by decide) 0 (exRunningJob "python dead.py" 200) 200
    (by rfl) (by rfl) (by rfl) (by rfl)

/-- Claim C8 as stated is false on the code: with allow-list [3, 1] the
snapshot iterates device 3 before device 1; both report 5000 MB, both qualify
at threshold 5000 and tie for the maximum, yet the chosen device is 3, not
the lowest tied id 1. -/
theorem tie_break_lowest_id_counterexample :
    get_all_gpus_free_mem_mb 4 (fun _ => some 5000) (some [3, 1])
        = [(3, 5000), (1, 5000)] ∧
    suitable_gpus [(3, 5000), (1, 5000)] 5000 = [(3, 5000), (1, 5000)] ∧
    bestGpu [(3, 5000), (1, 5000)] 5000 = some (3, 5000) ∧
    (1 : Nat) < 3 := by
  refine ⟨rfl, rfl, rfl, by decide⟩

/-- Claim C8 amended: the tie among qualifying devices with maximal free
memory is broken in favour of the device appearing first in snapshot
iteration order; whenever the snapshot's device ids are strictly ascending
(in particular for the default all-devices snapshot, which iterates ids in
increasing order), the chosen device has the lowest id among the tied ones. -/
theorem tie_break_first_in_iteration_order (snap : List (Nat × Int)) (thr : Int)
    (g : Nat) (m : Int)
    (hasc : snap.Pairwise (fun a b => a.1 < b.1))
    (hb : bestGpu snap thr = some (g, m)) :
    ∀ r ∈ suitable_gpus snap thr, r.2 = m → g ≤ r.1 := by
  intro r hr hm
  have hfm : firstMax (suitable_gpus snap thr) = some (g, m) := by
    rw [← bestGpu_eq_firstMax]
    exact hb
  obtain ⟨l1, l2, heq, hlt⟩ := firstMax_split hfm
  have hasc' : (suitable_gpus snap thr).Pairwise (fun a b => a.1 < b.1) :=
    List.Pairwise.sublist (List.filter_sublist _) hasc
  rw [heq] at hr hasc'
  rcases List.mem_append.mp hr with h1 | h2
  · have := hlt r h1
    rw [hm] at this
    exact absurd this (lt_irrefl m)
  · rcases List.mem_cons.mp h2 with rfl | h3
    · exact le_refl _
    · have hpair := (List.pairwise_append.mp hasc').2.1
      have := (List.pairwise_cons.mp hpair).1 r h3
      exact le_of_lt this

/-- Witness for the amended C8: on the ascending-id snapshot with ids 1 and 3
both reporting 5000 MB, device 3 is a tied qualifying device and the chosen
id 1 is below it. -/
theorem tie_break_first_in_iteration_order_witness :
    ((3 : Nat), (5000 : Int)) ∈ suitable_gpus [(1, 5000), (3, 5000)] 5000 ∧
      (1 : Nat) ≤ 3 :=
  ⟨by decide,
    tie_break_first_in_iteration_order [(1, 5000), (3, 5000)] 5000 1 5000
      (by decide) (by rfl) (3, 5000) (by decide) (by decide)⟩

/-- Claim C1: in a cycle's assignment pass with at least one pending job, if
some snapshot device qualifies (free memory ≥ threshold), the first pending
job is assigned to a device with maximal free memory among the qualifying
ones; in particular, on the snapshot A=8000, B=10000 with threshold 6000, the
single pending job is assigned to device B (id 1). -/
theorem first_pending_gets_max_free_gpu :
    (∀ (thr : Int) (L : Nat → LaunchInfo) (k : Nat) (jobs : List Job)
        (snap : List (Nat × Int)) (i0 : Nat),
      (pendingIndices jobs).head? = some i0 →
      suitable_gpus snap thr ≠ [] →
      ∃ g m, bestGpu snap thr = some (g, m) ∧
        (g, m) ∈ suitable_gpus snap thr ∧
        (∀ r ∈ suitable_gpus snap thr, r.2 ≤ m) ∧
        ∃ j, (assignLoop thr L (pendingIndices jobs) k jobs snap).jobs.get? i0
            = some j ∧ j.status = Status.running ∧ j.gpu_id = some g) ∧
    ((assignLoop 6000 exLaunches (pendingIndices [newPendingJob "python a.py"]) 0
        [newPendingJob "python a.py"] exSnapAB).jobs.map Job.gpu_id
      = [some 1]) := by
  constructor
  · intro thr L k jobs snap i0 hhead hsuit
    obtain ⟨gm, hb⟩ : ∃ gm, bestGpu snap thr = some gm := by
      cases hbb : bestGpu snap thr with
      | none => exact absurd (bestGpu_none_iff.mp hbb) hsuit
      | some gm => exact ⟨gm, rfl⟩
    obtain ⟨g, m⟩ := gm
    refine ⟨g, m, hb, bestGpu_mem hb, bestGpu_max hb, ?_⟩
    obtain ⟨rest, hpi⟩ : ∃ rest, pendingIndices jobs = i0 :: rest := by
      cases hp : pendingIndices jobs with
      | nil => rw [hp] at hhead; cases hhead
      | cons a r =>
        rw [hp] at hhead
        cases hhead
        exact ⟨r, rfl⟩
    have hmem : i0 ∈ pendingIndices jobs := by
      rw [hpi]
      exact List.mem_cons_self _ _
    have hlen : i0 < jobs.length := (mem_pendingIndices.mp hmem).1
    have hnd := pendingIndices_nodup jobs
    rw [hpi] at hnd
    have hni : i0 ∉ rest := (List.nodup_cons.mp hnd).1
    rw [hpi]
    simp only [assignLoop, hb]
    rw [assignLoop_untouched thr L rest _ _ _ i0 hni]
    rw [get?_set_self' _ _ _ hlen]
    exact ⟨_, rfl, rfl, rfl⟩
  · decide

/-- Witness for C1 on the spec's worked example. -/
theorem first_pending_gets_max_free_gpu_witness :
    ∃ g m, bestGpu exSnapAB 6000 = some (g, m) ∧
      (g, m) ∈ suitable_gpus exSnapAB 6000 ∧
      (∀ r ∈ suitable_gpus exSnapAB 6000, r.2 ≤ m) ∧
      ∃ j, (assignLoop 6000 exLaunches
          (pendingIndices [newPendingJob "python a.py"]) 0
          [newPendingJob "python a.py"] exSnapAB).jobs.get? 0 = some j ∧
        j.status = Status.running ∧ j.gpu_id = some g :=
  first_pending_gets_max_free_gpu.1 6000 exLaunches 0
    [newPendingJob "python a.py"] exSnapAB 0 (by decide) (by decide)

/-- Claim C4: any device chosen for an assignment had, at choice time, a
snapshot estimate ≥ threshold, and the decrement after an assignment lowers
the chosen device's estimate by exactly the threshold; concretely, with two
pending jobs on A=8000, B=10000 at threshold 6000, the first job goes to B,
B's usable estimate becomes 4000, and the second job is assigned to A, not
B. -/
theorem reservation_decrement_and_requalification :
    (∀ (snap : List (Nat × Int)) (thr : Int) (g : Nat) (m : Int),
      bestGpu snap thr = some (g, m) →
      thr ≤ m ∧ (g, m) ∈ snap ∧
        lookupSnap (decSnap snap g thr) g
          = (lookupSnap snap g).map (fun v => v - thr)) ∧
    ((assignLoop 6000 exLaunches (pendingIndices exTwoJobs) 0 exTwoJobs
        exSnapAB).assigned = [(0, 1), (1, 0)] ∧
      decSnap exSnapAB 1 6000 = [(0, 8000), (1, 4000)] ∧
      lookupSnap (decSnap exSnapAB 1 6000) 1 = some 4000 ∧
      (assignLoop 6000 exLaunches (pendingIndices exTwoJobs) 0 exTwoJobs
        exSnapAB).snap = [(0, 2000), (1, 4000)]) := by
  constructor
  · intro snap thr g m hb
    have hmem := bestGpu_mem hb
    have hsp := suitable_gpus_spec.mp hmem
    exact ⟨hsp.2, hsp.1, lookupSnap_decSnap snap g thr⟩
  · exact ⟨by decide, by decide, by decide, by decide⟩

/-- Witness for C4 at the worked example's first assignment (device B at
10000 MB, threshold 6000). -/
theorem reservation_decrement_witness :
    (6000 : Int) ≤ 10000 ∧ ((1 : Nat), (10000 : Int)) ∈ exSnapAB ∧
      lookupSnap (decSnap exSnapAB 1 6000) 1
        = (lookupSnap exSnapAB 1).map (fun v => v - 6000) :=
  reservation_decrement_and_requalification.1 exSnapAB 6000 1 10000 (by decide)

/-- Claim C5: the assignment pass visits pending jobs in ledger order, the
assigned jobs forming a prefix of the pending list in that order; if the pass
stops before exhausting the pending list, it is because no device of the
snapshot at that point still qualifies, and the stopping job together with
every later pending job is left pending. -/
theorem assignment_pass_fifo_and_blocking (thr : Int) (L : Nat → LaunchInfo)
    (k : Nat) (jobs : List Job) (snap : List (Nat × Int)) :
    ∃ n,
      (assignLoop thr L (pendingIndices jobs) k jobs snap).assigned.map Prod.fst
          = (pendingIndices jobs).take n ∧
      (n < (pendingIndices jobs).length →
        suitable_gpus (assignLoop thr L (pendingIndices jobs) k jobs snap).snap
          thr = []) ∧
      ∀ i ∈ (pendingIndices jobs).drop n,
        ∃ j, (assignLoop thr L (pendingIndices jobs) k jobs snap).jobs.get? i
            = some j ∧ j.status = Status.pending := by
  obtain ⟨n, hn, h1, h2, h3⟩ :=
    assignLoop_spec thr L (pendingIndices jobs) k jobs snap
      (pendingIndices_nodup jobs)
  refine ⟨n, h1, h2, ?_⟩
  intro i hi
  have hmem : i ∈ pendingIndices jobs := List.drop_subset _ _ hi
  obtain ⟨hlen, hst⟩ := mem_pendingIndices.mp hmem
  rw [h3 i hi]
  cases hjg : jobs.get? i with
  | none =>
    rw [hjg] at hst
    cases hst
  | some j =>
    rw [hjg] at hst
    exact ⟨j, rfl, by simpa using hst⟩

/-- Witness for C5: two pending jobs against a single device at 7000 MB with
threshold 6000 — the first is assigned, the pass then stops with the second
still pending. -/
theorem assignment_pass_fifo_and_blocking_witness :
    ∃ n,
      (assignLoop 6000 exLaunches (pendingIndices exTwoJobs) 0 exTwoJobs
          [(0, 7000)]).assigned.map Prod.fst = (pendingIndices exTwoJobs).take n ∧
      (n < (pendingIndices exTwoJobs).length →
        suitable_gpus (assignLoop 6000 exLaunches (pendingIndices exTwoJobs) 0
          exTwoJobs [(0, 7000)]).snap 6000 = []) ∧
      ∀ i ∈ (pendingIndices exTwoJobs).drop n,
        ∃ j, (assignLoop 6000 exLaunches (pendingIndices exTwoJobs) 0 exTwoJobs
            [(0, 7000)]).jobs.get? i = some j ∧ j.status = Status.pending :=
  assignment_pass_fifo_and_blocking 6000 exLaunches 0 exTwoJobs [(0, 7000)]

/-- Claim C2: ingest appends a new pending record only for command texts that
exactly match no existing record (terminal or not), the appended texts being
pairwise distinct; consequently, starting from a ledger whose command texts
are pairwise distinct, ingesting the same command source twice leaves every
command text unique, so no two non-terminal (pending or running) records ever
share a command text. -/
theorem ingest_dedup_no_duplicate_nonterminal (jobs : List Job)
    (cmds : List String) (h : (jobs.map Job.command).Nodup) :
    (∃ new, ingest jobs cmds = jobs ++ new ∧
      (∀ r ∈ new, r.status = Status.pending ∧
        ∀ j ∈ jobs, j.command ≠ r.command) ∧
      (new.map Job.command).Nodup) ∧
    (((ingest (ingest jobs cmds) cmds).map Job.command).Nodup ∧
      ∀ i k r s, (ingest (ingest jobs cmds) cmds).get? i = some r →
        (ingest (ingest jobs cmds) cmds).get? k = some s → i ≠ k →
        (r.status = Status.pending ∨ r.status = Status.running) →
        (s.status = Status.pending ∨ s.status = Status.running) →
        r.command ≠ s.command) := by
  constructor
  · obtain ⟨new, heq, hprops, hnd⟩ := ingest_extends cmds jobs
    exact ⟨new, heq, fun r hr => ⟨(hprops r hr).1, (hprops r hr).2.2⟩, hnd⟩
  · have h2 : ((ingest (ingest jobs cmds) cmds).map Job.command).Nodup :=
      ingest_nodup_commands cmds _ (ingest_nodup_commands cmds jobs h)
    exact ⟨h2, fun i k r s hi hk hik _ _ => nodup_commands_get? h2 hi hk hik⟩

/-- Witness for C2: ingesting a source with a repeated command into an empty
ledger, twice. -/
theorem ingest_dedup_witness :
    (∃ new, ingest [] ["echo a", "echo b", "echo a"] = [] ++ new ∧
      (∀ r ∈ new, r.status = Status.pending ∧
        ∀ j ∈ ([] : List Job), j.command ≠ r.command) ∧
      (new.map Job.command).Nodup) ∧
    (((ingest (ingest [] ["echo a", "echo b", "echo a"])
        ["echo a", "echo b", "echo a"]).map Job.command).Nodup ∧
      ∀ i k r s, (ingest (ingest [] ["echo a", "echo b", "echo a"])
          ["echo a", "echo b", "echo a"]).get? i = some r →
        (ingest (ingest [] ["echo a", "echo b", "echo a"])
          ["echo a", "echo b", "echo a"]).get? k = some s → i ≠ k →
        (r.status = Status.pending ∨ r.status = Status.running) →
        (s.status = Status.pending ∨ s.status = Status.running) →
        r.command ≠ s.command) :=
  ingest_dedup_no_duplicate_nonterminal [] ["echo a", "echo b", "echo a"]
    (by decide)

/-- Claim C10: each source line is stripped of surrounding whitespace (blank
and whitespace-only lines being skipped before deduplication): two lines that
differ only in surrounding whitespace strip to the same text; when that text
is non-blank it is among the ingest candidates; and, dedup being an exact
match on the stored (stripped) text, at most one ledger record carries it
after ingest. -/
theorem source_lines_stripped_dedup (jobs : List Job) (lines : List String)
    (l1 l2 s : String) (a1 b1 a2 b2 : List Char)
    (hnd : (jobs.map Job.command).Nodup)
    (h1 : l1.data = a1 ++ s.data ++ b1) (h2 : l2.data = a2 ++ s.data ++ b2)
    (ha1 : ∀ c ∈ a1, isPySpace c = true) (hb1 : ∀ c ∈ b1, isPySpace c = true)
    (ha2 : ∀ c ∈ a2, isPySpace c = true) (hb2 : ∀ c ∈ b2, isPySpace c = true)
    (hl1 : l1 ∈ lines) :
    pyStrip l1 = pyStrip l2 ∧
    (pyStrip l1 ≠ "" → pyStrip l1 ∈ parseCommands lines) ∧
    (ingest jobs (parseCommands lines)).countP
        (fun r => r.command == pyStrip l1) ≤ 1 := by
  refine ⟨?_, ?_, ?_⟩
  · show String.mk (stripChars l1.data) = String.mk (stripChars l2.data)
    rw [h1, h2, stripChars_surround _ _ _ ha1 hb1,
      stripChars_surround _ _ _ ha2 hb2]
  · intro hne
    apply List.mem_filter.mpr
    constructor
    · exact List.mem_map.mpr ⟨l1, hl1, rfl⟩
    · simp [hne]
  · exact nodup_commands_countP (ingest_nodup_commands _ jobs hnd) _

/-- Witness for C10: in a two-line source the lines " echo a " and "echo a"
differ only in surrounding whitespace. -/
theorem source_lines_stripped_dedup_witness :
    pyStrip " echo a " = pyStrip "echo a" ∧
    (pyStrip " echo a " ≠ "" →
      pyStrip " echo a " ∈ parseCommands [" echo a ", "echo a"]) ∧
    (ingest [] (parseCommands [" echo a ", "echo a"])).countP
        (fun r => r.command == pyStrip " echo a ") ≤ 1 :=
  source_lines_stripped_dedup [] [" echo a ", "echo a"] " echo a " "echo a"
    "echo a" [' '] [' '] [] []
    (by decide) (by decide) (by decide)
    (by decide) (by decide) (by decide) (by decide)
    (by decide)

/-
Sync lemmas for the modelled run.
-/

theorem reconcileStartup_wf (alive0 : Int → Bool) (disk0 : List Job) :
    ∀ j ∈ reconcileStartup alive0 disk0,
      j.status = Status.running → j.pid ≠ none := by
  intro j hj hr hnone
  have := reconcileStartup_mem_running j hj hr
  rw [hnone] at this
  simp [is_process_running] at this

theorem ingest_branch_wf (alive0 : Int → Bool) (disk0 : List Job)
    (cmds : List String) :
    ∀ j ∈ (ingestLedger ⟨reconcileStartup alive0 disk0,
        reconcileStartup alive0 disk0⟩ cmds).1.disk,
      j.status = Status.running → j.pid ≠ none := by
  intro j hj hr
  rw [(ingestLedger_sync cmds _ rfl).2] at hj
  rcases ingestLedger_mem cmds _ j hj with hin | hp
  · exact reconcileStartup_wf alive0 disk0 j hin hr
  · rw [hp] at hr
    simp at hr

theorem loopIterTrace_sync (alive1 : Int → Bool) (wait : Int → Option Int)
    (thr : Int) (L : Nat → LaunchInfo) (dc : Nat) (query : Nat → Option Int)
    (gids : Option (List Nat)) (disk : List Job)
    (hwf : ∀ j ∈ disk, j.status = Status.running → j.pid ≠ none) :
    ∃ tr, loopIterTrace alive1 wait thr L dc query gids disk = some tr ∧
      ∀ st ∈ tr, st.disk = st.mem := by
  obtain ⟨js', hjs, hlen, hpt⟩ := reconcileCycle_sound alive1 wait disk hwf
  simp only [loopIterTrace, hjs]
  have htr3 : ∀ st ∈ (if cycleChanged alive1 disk then
      [(⟨js', js'⟩ : LedgerState)] else []), st.disk = st.mem := by
    split
    · intro st hst
      rcases List.mem_singleton.mp hst with rfl
      rfl
    · intro st hst
      simp at hst
  by_cases hpe : (pendingIndices js').isEmpty = true
  · rw [if_pos hpe]
    exact ⟨_, rfl, htr3⟩
  · rw [if_neg hpe]
    by_cases hse : (get_all_gpus_free_mem_mb dc query gids).isEmpty = true
    · rw [if_pos hse]
      exact ⟨_, rfl, htr3⟩
    · rw [if_neg hse]
      refine ⟨_, rfl, ?_⟩
      intro st hst
      rcases List.mem_append.mp hst with hh | hh
      · exact htr3 st hh
      · obtain ⟨w, hw, heq⟩ := List.mem_map.mp hh
        rw [← heq]

/-- Claim C3: in the modelled run (startup reconciliation and rewrite, ingest
with per-record append, first loop iteration with its conditional rewrite and
one rewrite per assignment), the run produces a mutation trace in which the
on-disk ledger equals the in-memory sequence after every mutation; and within
the assignment pass, the n-th rewrite is the full file state recorded right
after the n-th assignment, already containing that assignment's record as
running on its chosen device — persisted before the pass proceeds to the next
pending job. -/
theorem ledger_disk_matches_memory (alive0 alive1 : Int → Bool)
    (wait : Int → Option Int) (thr : Int) (L : Nat → LaunchInfo)
    (dc : Nat) (query : Nat → Option Int) (gids : Option (List Nat))
    (disk0 : List Job) (hasF : Bool) (srcLines : List String) :
    (∃ tr, run_cudaq_trace alive0 alive1 wait thr L dc query gids disk0 hasF
        srcLines = some tr ∧ ∀ st ∈ tr, st.disk = st.mem) ∧
    (∀ (jobs : List Job) (snap : List (Nat × Int)) (k : Nat),
      (assignLoop thr L (pendingIndices jobs) k jobs snap).writes.length
          = (assignLoop thr L (pendingIndices jobs) k jobs snap).assigned.length ∧
      ∀ nn i g,
        (assignLoop thr L (pendingIndices jobs) k jobs snap).assigned.get? nn
            = some (i, g) →
        ∃ w, (assignLoop thr L (pendingIndices jobs) k jobs snap).writes.get? nn
            = some w ∧ ∃ jr, w.get? i = some jr ∧
          jr.status = Status.running ∧ jr.gpu_id = some g) := by
  constructor
  · cases hasF with
    | false =>
      obtain ⟨tr, htr, hs⟩ :=
        loopIterTrace_sync alive1 wait thr L dc query gids
          (reconcileStartup alive0 disk0) (reconcileStartup_wf alive0 disk0)
      simp only [run_cudaq_trace, Bool.false_eq_true, if_false]
      rw [htr]
      refine ⟨_, rfl, ?_⟩
      intro st hst
      rcases List.mem_cons.mp hst with rfl | hst'
      · rfl
      · exact hs st (by simpa using hst')
    | true =>
      obtain ⟨tr, htr, hs⟩ :=
        loopIterTrace_sync alive1 wait thr L dc query gids
          (ingestLedger ⟨reconcileStartup alive0 disk0,
            reconcileStartup alive0 disk0⟩ (parseCommands srcLines)).1.disk
          (ingest_branch_wf alive0 disk0 (parseCommands srcLines))
      simp only [run_cudaq_trace, if_true]
      rw [htr]
      refine ⟨_, rfl, ?_⟩
      intro st hst
      rcases List.mem_cons.mp hst with rfl | hst'
      · rfl
      · rcases List.mem_append.mp hst' with hh | hh
        · exact (ingestLedger_sync (parseCommands srcLines) _ rfl).1 st hh
        · exact hs st hh
  · intro jobs snap k
    exact assignLoop_writes thr L (pendingIndices jobs) k jobs snap
      (fun i hi => (mem_pendingIndices.mp hi).1)

end Cudaq
